import Mathlib

/-!
Verification development for `sync_scripts.py`: a shallow embedding of the
metadata extractor (`parse_powershell_metadata`), the change-plan builder
(`log_change_plan`) and the per-file driver (`sync_script` / the walk loop of
`main`), together with theorems settling the specification claims.

Python regular expressions are embedded as deterministic scanners over
`List Char`.  Each scanner's doc comment names the regex of the source it
embeds; the deterministic form was derived from Python's leftmost,
greedy/lazy backtracking semantics (characters are treated as ASCII, which
covers every input the claims mention).
-/

namespace SyncScripts

/-- Python `\s` / `str.strip()` whitespace, ASCII range. -/
def isPySpace (c : Char) : Bool :=
  c = ' ' || c = '\t' || c = '\n' || c = '\r' || c = '\x0b' || c = '\x0c'

/-- Python `\w`, ASCII range. -/
def isWordChar (c : Char) : Bool :=
  ('a' ≤ c && c ≤ 'z') || ('A' ≤ c && c ≤ 'Z') || ('0' ≤ c && c ≤ '9') || c = '_'

/-- ASCII `str.upper` on one character. -/
def asciiUpperChar (c : Char) : Char :=
  if 'a' ≤ c && c ≤ 'z' then Char.ofNat (c.toNat - 32) else c

/-- ASCII `str.lower` on one character. -/
def asciiLowerChar (c : Char) : Char :=
  if 'A' ≤ c && c ≤ 'Z' then Char.ofNat (c.toNat + 32) else c

/-- Python `str.strip()` (no arguments): drop whitespace from both ends. -/
def pyStrip (cs : List Char) : List Char :=
  ((cs.dropWhile isPySpace).reverse.dropWhile isPySpace).reverse

/-- The single-quote character, kept out of a character literal. -/
def singleQuote : Char := Char.ofNat 39

/-- Python `str.strip("'\"")`: drop quote characters from both ends. -/
def stripQuotes (cs : List Char) : List Char :=
  let isQ : Char → Bool := fun c => c = singleQuote || c = '"'
  ((cs.dropWhile isQ).reverse.dropWhile isQ).reverse

/-- Python `str.split(',')`: always returns at least one piece. -/
def splitComma : List Char → List (List Char)
  | [] => [[]]
  | c :: rest =>
    if c = ',' then [] :: splitComma rest
    else
      match splitComma rest with
      | [] => [[c]]
      | h :: t => (c :: h) :: t

/-- Case-insensitive literal prefix match (pattern given in lowercase);
returns the rest of the input after the prefix. -/
def ciStarts : List Char → List Char → Option (List Char)
  | [], cs => some cs
  | _ :: _, [] => none
  | p :: ps, c :: cs => if asciiLowerChar c = p then ciStarts ps cs else none

/-- Case-sensitive literal prefix match; returns the rest after the prefix. -/
def litStarts : List Char → List Char → Option (List Char)
  | [], cs => some cs
  | _ :: _, [] => none
  | p :: ps, c :: cs => if c = p then litStarts ps cs else none

/-- Split the input at the first occurrence of a literal pattern: returns the
text before the occurrence and the text after it. -/
def splitFirst (pat : List Char) : List Char → Option (List Char × List Char)
  | [] =>
    match pat with
    | [] => some ([], [])
    | _ :: _ => none
  | c :: rest =>
    match litStarts pat (c :: rest) with
    | some r => some ([], r)
    | none =>
      match splitFirst pat rest with
      | some (pre, r) => some (c :: pre, r)
      | none => none

/-- The capture of `\s*([\w\s,]+)` at a fixed position (both parts greedy,
`\s` is a subset of the class, so the class run `T` extends the space run `W`;
when the class run is all whitespace the group backtracks to one character). -/
def tagCapture (cs : List Char) : Option (List Char) :=
  let T := cs.takeWhile (fun c => isWordChar c || isPySpace c || c = ',')
  let W := cs.takeWhile isPySpace
  if W.length < T.length then some (T.drop W.length)
  else
    match W.getLast? with
    | some w => some [w]
    | none => none

/-- Leftmost search for `(?i)#\s*<key>\s*([\w\s,]+)` (the `NINJA_OS:` /
`NINJA_ARCH:` directive lines); returns group 1. -/
def tagLineSearch (key : List Char) : List Char → Option (List Char)
  | [] => none
  | c :: rest =>
    match
      (if c = '#' then
        match ciStarts key (rest.dropWhile isPySpace) with
        | some r2 => tagCapture r2
        | none => none
      else none) with
    | some cap => some cap
    | none => tagLineSearch key rest

/-- `re.search(r'(?i)#\s*NINJA_OS:\s*([\w\s,]+)', content)`, group 1. -/
def osSearch (cs : List Char) : Option (List Char) :=
  tagLineSearch "ninja_os:".data cs

/-- `re.search(r'(?i)#\s*NINJA_ARCH:\s*([\w\s,]+)', content)`, group 1. -/
def archSearch (cs : List Char) : Option (List Char) :=
  tagLineSearch "ninja_arch:".data cs

/-- `re.search(r'<#([\s\S]*?)#>', content)`, group 1: text between the first
`<#` and the first `#>` after it. -/
def helpSearch (cs : List Char) : Option (List Char) :=
  match splitFirst "<#".data cs with
  | none => none
  | some (_, afterOpen) =>
    match splitFirst "#>".data afterOpen with
    | none => none
    | some (cap, _) => some cap

/-- The lookahead `(?=\r?\n\s*\.|\r?\n\s*#>|\Z)` tested at a position. -/
def boundaryAt (cs : List Char) : Bool :=
  match cs with
  | [] => true
  | _ =>
    match
      (match cs with
       | '\r' :: '\n' :: t => some t
       | '\n' :: t => some t
       | _ => none) with
    | none => false
    | some t =>
      match t.dropWhile isPySpace with
      | '.' :: _ => true
      | '#' :: '>' :: _ => true
      | _ => false

/-- Lazy capture `([\s\S]*?)` up to the first position satisfying
`boundaryAt`; returns the capture and the unconsumed rest. -/
def captureSplit : List Char → List Char × List Char
  | [] => ([], [])
  | c :: rest =>
    if boundaryAt (c :: rest) then ([], c :: rest)
    else
      match captureSplit rest with
      | (a, b) => (c :: a, b)

/-- `re.search(r'(?i)\.DESCRIPTION\s+([\s\S]*?)(?=\r?\n\s*\.|\r?\n\s*#>|\Z)',
help_text)`, group 1. -/
def descSearch : List Char → Option (List Char)
  | [] => none
  | c :: rest =>
    match
      (match ciStarts ".description".data (c :: rest) with
       | none => none
       | some r1 =>
         if (r1.takeWhile isPySpace).isEmpty then none
         else some (captureSplit (r1.dropWhile isPySpace)).1) with
    | some cap => some cap
    | none => descSearch rest

/-- One `finditer` step of
`(?i)\.PARAMETER\s+(\w+)\s+([\s\S]*?)(?=\r?\n\s*\.|\r?\n\s*#>|\Z)`:
the (name, value) groups and the rest of the input after the match. -/
def paramHelpTry (cs : List Char) : Option (List Char × List Char × List Char) :=
  match ciStarts ".parameter".data cs with
  | none => none
  | some r1 =>
    if (r1.takeWhile isPySpace).isEmpty then none
    else
      let r2 := r1.dropWhile isPySpace
      match r2.takeWhile isWordChar with
      | [] => none
      | nm =>
        let r3 := r2.drop nm.length
        if (r3.takeWhile isPySpace).isEmpty then none
        else
          let (v, rest) := captureSplit (r3.dropWhile isPySpace)
          some (nm, v, rest)

/-- `re.finditer` of the `.PARAMETER` pattern over the help text: all
(name, value) group pairs in match order. -/
def paramHelpScan (fuel : Nat) (cs : List Char) : List (List Char × List Char) :=
  match fuel with
  | 0 => []
  | fuel + 1 =>
    match cs with
    | [] => []
    | _ :: rest =>
      match paramHelpTry cs with
      | some (nm, v, r) => (nm, v) :: paramHelpScan fuel r
      | none => paramHelpScan fuel rest

/-- The `param_helps` dictionary: keys lowercased, values stripped, built in
match order (a later entry overwrites an earlier one on lookup). -/
def paramHelpsOf (ht : List Char) : List (List Char × List Char) :=
  (paramHelpScan (ht.length + 1) ht).map
    (fun p => (p.1.map asciiLowerChar, pyStrip p.2))

/-- `param_helps.get(key)`: Python dict assignment keeps the last value
written for a key, so lookup takes the last match with that key. -/
def helpsLookup (hs : List (List Char × List Char)) (k : List Char) :
    Option (List Char) :=
  (hs.reverse.find? (fun p => p.1 = k)).map (fun p => p.2)

/-- `re.search(r'(?i)param\s*\(([\s\S]*?)\)', content)`, group 1: after the
first `param` followed by optional whitespace and `(` the lazy capture stops
at the first `)` of the whole region (not bracket-depth aware). -/
def paramBlockSearch : List Char → Option (List Char)
  | [] => none
  | c :: rest =>
    match
      (match ciStarts "param".data (c :: rest) with
       | none => none
       | some r1 =>
         match r1.dropWhile isPySpace with
         | '(' :: r2 =>
           match splitFirst ")".data r2 with
           | some (cap, _) => some cap
           | none => none
         | _ => none) with
    | some cap => some cap
    | none => paramBlockSearch rest

/-- One match of the declaration-entry pattern
`((?:\[[^\]]+\]\s*)*)(?:\[(\w+)\]\s*)?\$(\w+)(?:\s*=\s*([^,\r\n\)]+))?`. -/
structure PMatch where
  attrs : List Char
  typeTag : Option (List Char)
  pname : List Char
  pdefault : Option (List Char)
deriving DecidableEq, Repr

/-- Greedy `((?:\[[^\]]+\]\s*)*)`: complete bracketed tags, each followed by
optional whitespace; the capture keeps the whitespace. -/
def scanAttrs (fuel : Nat) (cs : List Char) : List Char × List Char :=
  match fuel with
  | 0 => ([], cs)
  | fuel + 1 =>
    match cs with
    | '[' :: rest =>
      let inner := rest.takeWhile (fun c => !(c = ']'))
      (match rest.drop inner.length, inner with
       | ']' :: r3, _ :: _ =>
         let ws := r3.takeWhile isPySpace
         let (a, r5) := scanAttrs fuel (r3.drop ws.length)
         ('[' :: (inner ++ ']' :: (ws ++ a)), r5)
       | _, _ => ([], cs))
    | _ => ([], cs)

/-- Optional `(?:\[(\w+)\]\s*)?` after the greedy attribute group.  The greedy
attribute group already consumed every complete bracketed tag, so this can
only be reached at a bracket the attribute unit rejected, which this unit
rejects as well; it is kept to mirror the source pattern. -/
def scanType (cs : List Char) : Option (List Char) × List Char :=
  match cs with
  | '[' :: rest =>
    let inner := rest.takeWhile isWordChar
    (match rest.drop inner.length, inner with
     | ']' :: r3, _ :: _ => (some inner, r3.dropWhile isPySpace)
     | _, _ => (none, cs))
  | _ => (none, cs)

/-- `[^,\r\n\)]` of the default-value clause. -/
def allowedDefaultChar (c : Char) : Bool :=
  !(c = ',' || c = '\r' || c = '\n' || c = ')')

/-- Optional `(?:\s*=\s*([^,\r\n\)]+))?`: with `=` present, the default run
starts after the maximal whitespace run when a permitted character follows,
otherwise the lazy backtrack leaves a single whitespace character as the
default; with no `=` the whole optional group matches empty. -/
def scanDefault (cs : List Char) : Option (List Char) × List Char :=
  let w1 := cs.takeWhile isPySpace
  match cs.drop w1.length with
  | '=' :: r5 =>
    let w2 := r5.takeWhile isPySpace
    let q := r5.drop w2.length
    (match q.takeWhile allowedDefaultChar with
     | [] =>
       match w2.getLast? with
       | some w => (some [w], q)
       | none => (none, cs)
     | d => (some d, q.drop d.length))
  | _ => (none, cs)

/-- One attempted match of the declaration-entry pattern at a fixed start
position; returns the match and the rest of the input after it. -/
def tryEntry (fuel : Nat) (cs : List Char) : Option (PMatch × List Char) :=
  let (a, r1) := scanAttrs fuel cs
  let (t, r2) := scanType r1
  match r2 with
  | '$' :: r3 =>
    (match r3.takeWhile isWordChar with
     | [] => none
     | nm =>
       let (d, r5) := scanDefault (r3.drop nm.length)
       some (⟨a, t, nm, d⟩, r5))
  | _ => none

/-- `re.finditer` of the declaration-entry pattern over the `param(...)`
capture: matches in order, next search resuming at each match end. -/
def scanEntries (fuel : Nat) (cs : List Char) : List PMatch :=
  match fuel with
  | 0 => []
  | fuel + 1 =>
    match cs with
    | [] => []
    | _ :: rest =>
      match tryEntry fuel cs with
      | some (m, r) => m :: scanEntries fuel r
      | none => scanEntries fuel rest

/-- `re.search(r'(?i)Mandatory\s*=\s*\$true', attributes)` as a Boolean. -/
def mandatoryFrom : List Char → Bool
  | [] => false
  | c :: rest =>
    (match ciStarts "mandatory".data (c :: rest) with
     | none => false
     | some r1 =>
       match r1.dropWhile isPySpace with
       | '=' :: r3 =>
         (ciStarts "$true".data (r3.dropWhile isPySpace)).isSome
       | _ => false)
    || mandatoryFrom rest

/-- One entry of `metadata["variables"]`: the dictionary built per match in
`parse_powershell_metadata` (the `defaultValue` key is present only when a
default was matched, modelled as an `Option`). -/
structure ParsedVar where
  name : String
  description : String
  type : String
  required : Bool
  source : String
  defaultValue : Option String
deriving DecidableEq, Repr

/-- The `metadata` dictionary returned by `parse_powershell_metadata`. -/
structure ParsedMeta where
  description : String
  «variables» : List ParsedVar
  operatingSystems : List String
  architecture : List String
deriving DecidableEq, Repr

/-- `[o.strip().upper() for o in match.group(1).split(',')]`. -/
def tagTokens (cap : List Char) : List String :=
  (splitComma cap).map (fun t => String.mk ((pyStrip t).map asciiUpperChar))

/-- `type_map.get(p_type_raw, 'TEXT')` with the fixed token map of the
source (`p_type_raw` is already lowercased). -/
def typeMap (t : List Char) : String :=
  if t = "int".data then "INTEGER"
  else if t = "string".data then "TEXT"
  else if t = "bool".data then "CHECKBOX"
  else if t = "switch".data then "CHECKBOX"
  else if t = "decimal".data then "DECIMAL"
  else if t = "double".data then "DECIMAL"
  else if t = "float".data then "DECIMAL"
  else if t = "datetime".data then "DATETIME"
  else "TEXT"

/-- The loop body of `parse_powershell_metadata` that turns one regex match
into a variable dictionary. -/
def buildVar (helps : List (List Char × List Char)) (m : PMatch) : ParsedVar :=
  let p_type_raw := match m.typeTag with
    | some t => t.map asciiLowerChar
    | none => "string".data
  let p_default : Option (List Char) :=
    (m.pdefault.map pyStrip).map (fun s => if s.isEmpty then s else stripQuotes s)
  { name := String.mk m.pname
    description := match helpsLookup helps (m.pname.map asciiLowerChar) with
      | some h => String.mk h
      | none => "Variable " ++ String.mk m.pname
    type := typeMap p_type_raw
    required := mandatoryFrom m.attrs
    source := "LITERAL"
    defaultValue := p_default.map String.mk }

/-- The `.DESCRIPTION` step over the help-block text: the stripped capture,
or the empty string when the section is absent. -/
def descResult (ht : List Char) : String :=
  match descSearch ht with
  | some cap => String.mk (pyStrip cap)
  | none => ""

/-- `parse_powershell_metadata(content)`. -/
def parse_powershell_metadata (content : String) : ParsedMeta :=
  let c := content.data
  let osv := match osSearch c with
    | some cap => tagTokens cap
    | none => []
  let archv := match archSearch c with
    | some cap => tagTokens cap
    | none => []
  let dh : String × List (List Char × List Char) :=
    match helpSearch c with
    | none => ("", [])
    | some ht => (descResult ht, paramHelpsOf ht)
  let vars := match paramBlockSearch c with
    | none => []
    | some pt => (scanEntries (pt.length + 1) pt).map (buildVar dh.2)
  ⟨dh.1, vars, osv, archv⟩

/-- `match.group(1)` on a possibly-`None` match object whose group 1 always
participates: raises (`Except.error`) exactly when the object is `None`. -/
def pyGroup1 (m : Option (List Char)) : Except String (List Char) :=
  match m with
  | some g => Except.ok g
  | none => Except.error "AttributeError: NoneType object has no attribute group"

/-- `match.group(i)` on a declaration-entry match: group 1 and 3 always
participate, groups 2 and 4 are optional, any other index raises. -/
def pyGroupP (m : PMatch) (i : Nat) : Except String (Option (List Char)) :=
  match i with
  | 1 => Except.ok (some m.attrs)
  | 2 => Except.ok m.typeTag
  | 3 => Except.ok (some m.pname)
  | 4 => Except.ok m.pdefault
  | _ => Except.error "error: no such group"

/-- The loop body of `parse_powershell_metadata` with every match-group
access routed through the raising accessor `pyGroupP`. -/
def buildVarE (helps : List (List Char × List Char)) (m : PMatch) :
    Except String ParsedVar := do
  let g1 ← pyGroupP m 1
  let attributes := g1.getD []
  let g2 ← pyGroupP m 2
  let p_type_raw := match g2 with
    | some t => t.map asciiLowerChar
    | none => "string".data
  let g3 ← pyGroupP m 3
  let p_name ← match g3 with
    | some n => Except.ok n
    | none => Except.error "TypeError: NoneType"
  let g4 ← pyGroupP m 4
  let p_default : Option (List Char) :=
    (g4.map pyStrip).map (fun s => if s.isEmpty then s else stripQuotes s)
  pure
    { name := String.mk p_name
      description := match helpsLookup helps (p_name.map asciiLowerChar) with
        | some h => String.mk h
        | none => "Variable " ++ String.mk p_name
      type := typeMap p_type_raw
      required := mandatoryFrom attributes
      source := "LITERAL"
      defaultValue := p_default.map String.mk }

/-- The `.DESCRIPTION` step with the group access of the source
(`desc_match.group(1)`, guarded by `if desc_match`) routed through the
raising accessor. -/
def descResultE (ht : List Char) : Except String String :=
  match descSearch ht with
  | some _ => do
    let g ← pyGroup1 (descSearch ht)
    pure (String.mk (pyStrip g))
  | none => pure ""

/-- The `for m in matches` loop of the source with the raising loop body:
each produced variable is appended in order, any raise propagates. -/
def buildVarsE (helps : List (List Char × List Char)) :
    List PMatch → Except String (List ParsedVar)
  | [] => pure []
  | m :: rest => do
    let v ← buildVarE helps m
    let vs ← buildVarsE helps rest
    pure (v :: vs)

/-- `parse_powershell_metadata` with the match-object accesses that can raise
in Python (`.group(...)` on a possibly-`None` search result) modelled in the
`Except` monad; the source guards each access with a truthiness test. -/
def parse_powershell_metadataE (content : String) : Except String ParsedMeta := do
  let c := content.data
  let os_match := osSearch c
  let osv ← match os_match with
    | some _ => do
      let g ← pyGroup1 os_match
      pure (tagTokens g)
    | none => pure []
  let arch_match := archSearch c
  let archv ← match arch_match with
    | some _ => do
      let g ← pyGroup1 arch_match
      pure (tagTokens g)
    | none => pure []
  let help_block := helpSearch c
  let dh : String × List (List Char × List Char) ← match help_block with
    | some _ => do
      let ht ← pyGroup1 help_block
      let d ← descResultE ht
      pure (d, paramHelpsOf ht)
    | none => pure ("", ([] : List (List Char × List Char)))
  let param_block := paramBlockSearch c
  let vars ← match param_block with
    | some _ => do
      let pt ← pyGroup1 param_block
      buildVarsE dh.2 (scanEntries (pt.length + 1) pt)
    | none => pure []
  pure ⟨dh.1, vars, osv, archv⟩

/-- A script-variable dictionary as it appears in a local payload or a remote
record (`scriptVariables` entries).  Keys other than `name` may be absent on
remote records, modelled as `Option`; the local builder fills all of them. -/
structure PyVar where
  name : String
  description : Option String
  type : Option String
  required : Option Bool
  defaultValue : Option String
  source : Option String
  valueList : List String
deriving DecidableEq, Repr

/-- The projected dictionary produced inside `normalize_vars`: the field
subset `{name, description, type, required, defaultValue}` with
`v.get("required", False)` and `v.get("defaultValue", None)` defaults. -/
structure NVar where
  name : String
  description : Option String
  type : Option String
  required : Bool
  defaultValue : Option String
deriving DecidableEq, Repr

/-- The projection applied to each variable inside `normalize_vars`. -/
def projectVar (v : PyVar) : NVar :=
  ⟨v.name, v.description, v.type, v.required.getD false, v.defaultValue⟩

/-- Python string comparison: lexicographic by code point. -/
def clLe : List Char → List Char → Bool
  | [], _ => true
  | _ :: _, [] => false
  | a :: as, b :: bs => if a < b then true else if b < a then false else clLe as bs

/-- The sort key relation of `sorted(..., key=lambda x: x['name'])`. -/
def nameLe (a b : NVar) : Prop := clLe a.name.data b.name.data = true

instance : DecidableRel nameLe := fun _ _ =>
  inferInstanceAs (Decidable (_ = true))

/-- `normalize_vars(variables)`: project each entry and sort stably by name
(Python's `sorted` is a stable sort; `insertionSort` is stable as well). -/
def normalize_vars (vs : List PyVar) : List NVar :=
  List.insertionSort nameLe (vs.map projectVar)

/-- A field value printed in a MODIFY line: a string-or-`None` field or the
boolean `required` field. -/
inductive FVal where
  | s : Option String → FVal
  | b : Bool → FVal
deriving DecidableEq, Repr

/-- The key insertion order of the dictionary built in `normalize_vars`
(the iteration order of `for key in l_var`). -/
def fieldNames : List String := ["name", "description", "type", "required", "defaultValue"]

/-- `v.get(key)` on a normalized variable dictionary. -/
def nvarField (v : NVar) : String → FVal
  | "name" => .s (some v.name)
  | "description" => .s v.description
  | "type" => .s v.type
  | "required" => .b v.required
  | "defaultValue" => .s v.defaultValue
  | _ => .s none

/-- The per-key loop of the MODIFY branch: every key whose values differ,
in key order, with the remote (`r`, printed first) and local (`l`) values. -/
def diffFields (l r : NVar) : List (String × FVal × FVal) :=
  fieldNames.filterMap fun k =>
    if nvarField l k ≠ nvarField r k then some (k, nvarField r k, nvarField l k)
    else none

/-- One line of the parameter section of a change plan:
`+ ADD`, `~ MODIFY` or `- REMOVE`. -/
inductive PDiff where
  | add : NVar → PDiff
  | modify : String → List (String × FVal × FVal) → PDiff
  | remove : String → PDiff
deriving DecidableEq, Repr

/-- `remote_vars_map.get(name)`: a dict comprehension keeps the last entry
written for a key, so the lookup finds the last variable with the name. -/
def lookupLast (vs : List NVar) (n : String) : Option NVar :=
  vs.reverse.find? (fun v => v.name == n)

/-- The ADD / MODIFY branch for one local variable. -/
def addOrModify (remoteVars : List NVar) (l : NVar) : Option PDiff :=
  match lookupLast remoteVars l.name with
  | none => some (.add l)
  | some r => if l ≠ r then some (.modify l.name (diffFields l r)) else none

/-- The REMOVE branch for one remote variable. -/
def removeEntry (localVars : List NVar) (r : NVar) : Option PDiff :=
  if (localVars.map NVar.name).contains r.name then none
  else some (.remove r.name)

/-- The parameter section of `log_change_plan`: nothing when the normalized
sequences are equal, otherwise ADD/MODIFY lines in local order followed by
REMOVE lines in remote order. -/
def param_diffs (lv rv : List NVar) : List PDiff :=
  if lv = rv then []
  else lv.filterMap (addOrModify rv) ++ rv.filterMap (removeEntry lv)

/-- A remote script record as used by the source (at least
`{id, name, description, scriptVariables}`; `description` may be absent). -/
structure RemoteScript where
  id : Nat
  name : String
  description : Option String
  scriptVariables : List PyVar
deriving DecidableEq, Repr

/-- The local payload dictionary built in `sync_script`. -/
structure LocalPayload where
  name : String
  description : String
  language : String
  operatingSystems : List String
  architecture : List String
  code : String
  scriptVariables : List PyVar
deriving DecidableEq, Repr

/-- The fixed advisory line printed for the script body. -/
def codeAdvisory : String :=
  "The API does not allow fetching remote script code, so a manual comparison is required."

/-- The change plan printed by `log_change_plan`, as data: the script name,
the optional description diff (current remote value, proposed local value),
the fixed code advisory, and the parameter diff lines. -/
structure ChangePlan where
  scriptName : String
  descriptionDiff : Option (Option String × String)
  codeNote : String
  paramDiffs : List PDiff
deriving DecidableEq, Repr

/-- `log_change_plan(local, remote)` (its printed content, as data).  The
local payload always carries a `description` string; the remote record's may
be absent, hence the `some`/`Option` comparison. -/
def log_change_plan (localRec : LocalPayload) (remote : RemoteScript) : ChangePlan :=
  { scriptName := localRec.name
    descriptionDiff :=
      if (some localRec.description) ≠ remote.description then
        some (remote.description, localRec.description)
      else none
    codeNote := codeAdvisory
    paramDiffs :=
      param_diffs (normalize_vars localRec.scriptVariables)
        (normalize_vars remote.scriptVariables) }

/-- `os.path.basename(p)` (POSIX): the part after the last `/`. -/
def basename (p : String) : String :=
  String.mk (p.data.foldl (fun acc c => if c = '/' then [] else acc ++ [c]) [])

/-- `os.path.splitext` on a basename: split at the last dot, unless every
character before that dot is a dot (leading dots do not start an extension). -/
def splitextB (b : List Char) : List Char × List Char :=
  let lead := (b.takeWhile (fun c => c = '.')).length
  let rest := b.drop lead
  if rest.any (fun c => c = '.') then
    let extLen := (rest.reverse.takeWhile (fun c => !(c = '.'))).length + 1
    (b.take (b.length - extLen), b.drop (b.length - extLen))
  else (b, [])

/-- `os.path.splitext(file_name)[0]`. -/
def stemOf (file_name : String) : String :=
  String.mk (splitextB file_name.data).1

/-- `os.path.splitext(file_name)[1].lower()`. -/
def extLowerOf (file_name : String) : String :=
  String.mk ((splitextB file_name.data).2.map asciiLowerChar)

/-- The `language_map` dictionary of `sync_script`. -/
def language_map (ext : String) : Option String :=
  if ext = ".ps1" then some "powershell"
  else if ext = ".sh" then some "shell"
  else if ext = ".bat" then some "batch"
  else if ext = ".cmd" then some "batch"
  else none

/-- UTF-8 bytes of one character. -/
def utf8Bytes (c : Char) : List Nat :=
  let n := c.toNat
  if n < 0x80 then [n]
  else if n < 0x800 then
    [0xC0 ||| (n >>> 6), 0x80 ||| (n &&& 0x3F)]
  else if n < 0x10000 then
    [0xE0 ||| (n >>> 12), 0x80 ||| ((n >>> 6) &&& 0x3F), 0x80 ||| (n &&& 0x3F)]
  else
    [0xF0 ||| (n >>> 18), 0x80 ||| ((n >>> 12) &&& 0x3F),
     0x80 ||| ((n >>> 6) &&& 0x3F), 0x80 ||| (n &&& 0x3F)]

/-- The base64 alphabet. -/
def b64Char (i : Nat) : Char :=
  "ABCDEFGHIJKLMNOPQRSTUVWXYZabcdefghijklmnopqrstuvwxyz0123456789+/".data.getD i 'A'

/-- Standard base64 of a byte list, with padding. -/
def b64encode : List Nat → List Char
  | [] => []
  | [a] => [b64Char (a >>> 2), b64Char ((a &&& 3) <<< 4), '=', '=']
  | [a, b] =>
    [b64Char (a >>> 2), b64Char (((a &&& 3) <<< 4) ||| (b >>> 4)),
     b64Char ((b &&& 15) <<< 2), '=']
  | a :: b :: c :: rest =>
    b64Char (a >>> 2) :: b64Char (((a &&& 3) <<< 4) ||| (b >>> 4)) ::
    b64Char (((b &&& 15) <<< 2) ||| (c >>> 6)) :: b64Char (c &&& 63) ::
    b64encode rest

/-- `base64.b64encode(script_text.encode('utf-8')).decode('utf-8')`. -/
def encodedCode (script_text : String) : String :=
  String.mk (b64encode (script_text.data.flatMap utf8Bytes))

/-- `parse_powershell_metadata(script_text) if extension == '.ps1' else {}`:
the empty dictionary is modelled as `none`. -/
def metaOf (extension : String) (script_text : String) : Option ParsedMeta :=
  if extension = ".ps1" then some (parse_powershell_metadata script_text) else none

/-- `metadata.get("description", default)`: the parsed dictionary always has
the key; the empty dictionary falls back to the default. -/
def mdDescription (md : Option ParsedMeta) (dflt : String) : String :=
  match md with
  | some m => m.description
  | none => dflt

/-- `metadata.get("variables", [])` (via `.get` with an empty default). -/
def mdVariables (md : Option ParsedMeta) : List ParsedVar :=
  match md with
  | some m => m.«variables»
  | none => []

/-- `metadata.get("operatingSystems", [])`. -/
def mdOS (md : Option ParsedMeta) : List String :=
  match md with
  | some m => m.operatingSystems
  | none => []

/-- `metadata.get("architecture", [])`. -/
def mdArch (md : Option ParsedMeta) : List String :=
  match md with
  | some m => m.architecture
  | none => []

/-- The `operating_systems` list of `sync_script`: membership tests in the
fixed order Windows, Mac, Linux. -/
def osDisplay (metaOS : List String) : List String :=
  (if "WINDOWS" ∈ metaOS then ["Windows"] else []) ++
  (if "MAC" ∈ metaOS then ["Mac"] else []) ++
  (if "LINUX" ∈ metaOS then ["Linux"] else [])

/-- The `architectures` list of `sync_script`: X86 then AMD64. -/
def archDisplay (metaArch : List String) : List String :=
  (if "X86" ∈ metaArch then ["32"] else []) ++
  (if "AMD64" ∈ metaArch then ["64"] else [])

/-- One entry of the `script_variables` list built in `sync_script` from a
parsed variable. -/
def toPyVar (v : ParsedVar) : PyVar :=
  { name := v.name
    description := some v.description
    type := some v.type
    required := some v.required
    defaultValue := v.defaultValue
    source := some "LITERAL"
    valueList := [] }

/-- The `local_payload` dictionary built in `sync_script` (lines 205-242 of
the source).  `sync_script` only reaches this construction for extensions in
`language_map`; the `getD ""` branch of `language` is never taken there. -/
def local_payload (file_path : String) (script_text : String) : LocalPayload :=
  let file_name := basename file_path
  let script_name := stemOf file_name
  let extension := extLowerOf file_name
  let md := metaOf extension script_text
  { name := script_name
    description := mdDescription md ("From " ++ file_name)
    language := (language_map extension).getD ""
    operatingSystems := osDisplay (mdOS md)
    architecture := archDisplay (mdArch md)
    code := encodedCode script_text
    scriptVariables := (mdVariables md).map toPyVar }

/-- The per-file result of `sync_script`: an early return on an unknown
extension, a change plan against an existing remote record, or the advisory
creation plan for a new script. -/
inductive Outcome where
  | skipped : Outcome
  | processed : ChangePlan → Outcome
  | newScript : LocalPayload → Outcome
deriving DecidableEq, Repr

/-- `sync_script(token, file_path, existing_scripts_list)`.  The file read is
passed in as an `Except` (the collaborator may raise an I/O or decoding
error); the read happens after the extension check, and an error propagates
uncaught out of the function. -/
def sync_script (file_path : String) (readResult : Except String String)
    (existing_scripts_list : List RemoteScript) : Except String Outcome :=
  let file_name := basename file_path
  let script_name := stemOf file_name
  let extension := extLowerOf file_name
  match language_map extension with
  | none => Except.ok Outcome.skipped
  | some _ => do
    let script_text ← readResult
    let existing_script := existing_scripts_list.find? (fun s => s.name == script_name)
    let lp := local_payload file_path script_text
    match existing_script with
    | some s => pure (Outcome.processed (log_change_plan lp s))
    | none => pure (Outcome.newScript lp)

/-- The walk loop of `main`: `sync_script` is called per file with no
`try`/`except`, so the first uncaught exception aborts the whole batch and
later files produce no outcome. -/
def processFiles (files : List (String × Except String String))
    (existing : List RemoteScript) : Except String (List Outcome) :=
  match files with
  | [] => Except.ok []
  | (p, r) :: rest => do
    let o ← sync_script p r existing
    let os ← processFiles rest existing
    pure (o :: os)

deriving instance DecidableEq for Except

/-- The parameter name an entry of the diff list is about. -/
def entryName : PDiff → String
  | .add v => v.name
  | .modify n _ => n
  | .remove n => n

/-- The entry is an ADD line for the given name. -/
def isAddOf (n : String) : PDiff → Bool
  | .add v => v.name == n
  | _ => false

/-- The entry is a MODIFY line for the given name. -/
def isModifyOf (n : String) : PDiff → Bool
  | .modify m _ => m == n
  | _ => false

/-- The entry is a REMOVE line for the given name. -/
def isRemoveOf (n : String) : PDiff → Bool
  | .remove m => m == n
  | _ => false

/-- The entry names the given parameter (of any kind). -/
def mentionsName (n : String) (e : PDiff) : Bool := entryName e == n

/-- C1: what the code actually returns on `param([int]$Count = 5)`: the
greedy attribute group of the declaration regex consumes the `[int]` tag, so
the type group never participates and the type falls back to TEXT, not
INTEGER as the claim states; all other fields are as claimed. -/
theorem c1_code_behavior :
    parse_powershell_metadata "param([int]$Count = 5)" =
      ⟨"", [⟨"Count", "Variable Count", "TEXT", false, "LITERAL", some "5"⟩], [], []⟩ := by
  decide

/-- C3 counterexample: on `param($A = 1, $A = 2)` the extractor keeps both
same-named declarations, so the variable sequence does not contain exactly
one ParameterSpec named A. -/
theorem c3_counterexample :
    ¬ (((parse_powershell_metadata "param($A = 1, $A = 2)").«variables».filter
        (fun v => v.name == "A")).length = 1) := by
  decide

/-- C3 amended: the extractor keeps one ParameterSpec per matched
declaration, in source order; two declarations sharing the name A yield two
entries, the later entry carrying the later declaration's fields (no
deduplication happens). -/
theorem c3_amended :
    (parse_powershell_metadata "param($A = 1, $A = 2)").«variables» =
      [⟨"A", "Variable A", "TEXT", false, "LITERAL", some "1"⟩,
       ⟨"A", "Variable A", "TEXT", false, "LITERAL", some "2"⟩] := by
  decide

/-- C5: what the code actually returns on
`param([Parameter(Mandatory=$true)][string]$Target)`: the declaration region
is cut at the first `)` — the one inside `Parameter(...)` — so the matched
text is `[Parameter(Mandatory=$true`, which produces a single variable named
`true` with `required = false`, not a Target variable with `required = true`
as the claim states. -/
theorem c5_code_behavior :
    parse_powershell_metadata "param([Parameter(Mandatory=$true)][string]$Target)" =
      ⟨"", [⟨"true", "Variable true", "TEXT", false, "LITERAL", none⟩], [], []⟩ := by
  decide

/-- C2 counterexample: with two remote records both named `s`, `sync_script`
does not fail with an ambiguity reason — it silently uses the first record
and produces a normal change plan. -/
theorem c2_counterexample :
    sync_script "s.ps1" (Except.ok "Write-Host hi")
        [⟨1, "s", some "", []⟩, ⟨2, "s", some "other", []⟩] =
      Except.ok (Outcome.processed ⟨"s", none, codeAdvisory, []⟩) := by
  decide

/-- C2 amended: when several remote records share the derived script name,
the first matching record in list order is used and an ordinary change plan
against it is produced; duplicates after it are ignored and no failure
outcome exists for this situation. -/
theorem c2_first_match (file_path content : String) (pre post : List RemoteScript)
    (r : RemoteScript) (lang : String)
    (hlang : language_map (extLowerOf (basename file_path)) = some lang)
    (hname : r.name = stemOf (basename file_path))
    (hpre : ∀ s ∈ pre, s.name ≠ stemOf (basename file_path)) :
    sync_script file_path (Except.ok content) (pre ++ r :: post) =
      Except.ok (Outcome.processed (log_change_plan (local_payload file_path content) r)) := by
  have hfind : (pre ++ r :: post).find?
      (fun s => s.name == stemOf (basename file_path)) = some r := by
    rw [List.find?_append]
    have h1 : pre.find? (fun s => s.name == stemOf (basename file_path)) = none := by
      rw [List.find?_eq_none]
      intro s hs
      simpa using hpre s hs
    rw [h1]
    simp [List.find?_cons, hname]
  simp only [sync_script, hlang]
  simp [hfind]

/-- C2 amended, witness: a concrete remote list whose two records both carry
the derived name `t`; the first is used and a plan is produced. -/
theorem c2_first_match_witness :
    sync_script "t.ps1" (Except.ok "Write-Host hi")
        ([] ++ (⟨1, "t", some "", []⟩ : RemoteScript) :: [⟨2, "t", some "", []⟩]) =
      Except.ok (Outcome.processed
        (log_change_plan (local_payload "t.ps1" "Write-Host hi") ⟨1, "t", some "", []⟩)) :=
  c2_first_match "t.ps1" "Write-Host hi" [] [⟨2, "t", some "", []⟩]
    ⟨1, "t", some "", []⟩ "powershell" (by decide) (by decide) (by simp)

/-- C4 counterexample: a read failure on the first file aborts the batch —
the second file never yields an outcome, so it is not the case that every
file yields exactly one outcome with failures contained per file. -/
theorem c4_counterexample :
    processFiles [("a.ps1", Except.error "IOError: unreadable"),
                  ("b.ps1", Except.ok "Write-Host hi")] [] =
      Except.error "IOError: unreadable" := by
  decide

/-- C4 amended: for a file whose extension is supported, a read or decoding
failure propagates uncaught out of `sync_script` and aborts the whole batch;
the failing file and every file after it yield no outcome. -/
theorem c4_amended (file_path e : String) (rest : List (String × Except String String))
    (existing : List RemoteScript) (lang : String)
    (hlang : language_map (extLowerOf (basename file_path)) = some lang) :
    processFiles ((file_path, Except.error e) :: rest) existing = Except.error e := by
  simp only [processFiles, sync_script, hlang]
  rfl

/-- C4 amended, witness: a concrete failing read on `c.ps1` aborts the batch
before `d.sh` is processed. -/
theorem c4_amended_witness :
    processFiles (("c.ps1", Except.error "boom") :: [("d.sh", Except.ok "echo hi")]) [] =
      Except.error "boom" :=
  c4_amended "c.ps1" "boom" [("d.sh", Except.ok "echo hi")] [] "powershell" (by decide)

/-- C9: an input on which none of the four recognizers fires (no OS tag
line, no architecture tag line, no help block, no declaration block) yields
exactly the default record. -/
theorem c9_total_default (content : String)
    (h1 : osSearch content.data = none) (h2 : archSearch content.data = none)
    (h3 : helpSearch content.data = none) (h4 : paramBlockSearch content.data = none) :
    parse_powershell_metadata content = ⟨"", [], [], []⟩ := by
  simp only [parse_powershell_metadata, h1, h2, h3, h4]

/-- C9 witness: a concrete annotation-free script text. -/
theorem c9_total_default_witness :
    parse_powershell_metadata "Write-Host hello" = ⟨"", [], [], []⟩ :=
  c9_total_default "Write-Host hello" (by decide) (by decide) (by decide) (by decide)

/-- C10: for a supported non-PowerShell extension the metadata step returns
the empty dictionary, so — whatever annotations the text contains — the
local payload has no script variables, no operating systems, no
architecture, and the generated `From <filename>` description. -/
theorem c10_non_powershell (file_path content : String)
    (hext : extLowerOf (basename file_path) = ".sh" ∨
      extLowerOf (basename file_path) = ".bat" ∨
      extLowerOf (basename file_path) = ".cmd") :
    (local_payload file_path content).scriptVariables = [] ∧
    (local_payload file_path content).operatingSystems = [] ∧
    (local_payload file_path content).architecture = [] ∧
    (local_payload file_path content).description = "From " ++ basename file_path := by
  have hne : ¬ (extLowerOf (basename file_path) = ".ps1") := by
    rcases hext with h | h | h <;> rw [h] <;> decide
  simp [local_payload, metaOf, hne, mdDescription, mdVariables, mdOS, mdArch,
    osDisplay, archDisplay]

/-- C10 witness: a `.sh` file whose text carries both an OS annotation and a
declaration block still yields an empty, placeholder-described payload. -/
theorem c10_non_powershell_witness :
    (local_payload "a.sh" "# NINJA_OS: WINDOWS\nparam($X = 1)").scriptVariables = [] ∧
    (local_payload "a.sh" "# NINJA_OS: WINDOWS\nparam($X = 1)").operatingSystems = [] ∧
    (local_payload "a.sh" "# NINJA_OS: WINDOWS\nparam($X = 1)").architecture = [] ∧
    (local_payload "a.sh" "# NINJA_OS: WINDOWS\nparam($X = 1)").description =
      "From " ++ basename "a.sh" :=
  c10_non_powershell "a.sh" "# NINJA_OS: WINDOWS\nparam($X = 1)" (Or.inl (by decide))

/-- C7: extraction of an OS tag line splits the capture on commas and trims
and uppercases each token; the builder's display list depends only on which
tokens are present (not on their order) and emits the canonical names in the
fixed Windows, Mac, Linux order, dropping unmapped tokens; the pinned
examples `Windows, Linux` and `LINUX, WINDOWS` both yield
`["Windows", "Linux"]`. -/
theorem c7_os_pipeline :
    (∀ content cap, osSearch content.data = some cap →
        (parse_powershell_metadata content).operatingSystems =
          (splitComma cap).map (fun t => String.mk ((pyStrip t).map asciiUpperChar))) ∧
    (∀ l₁ l₂ : List String, (∀ t, t ∈ l₁ ↔ t ∈ l₂) → osDisplay l₁ = osDisplay l₂) ∧
    (parse_powershell_metadata "# NINJA_OS: Windows, Linux").operatingSystems =
      ["WINDOWS", "LINUX"] ∧
    (local_payload "x.ps1" "# NINJA_OS: Windows, Linux").operatingSystems =
      ["Windows", "Linux"] ∧
    (local_payload "x.ps1" "# NINJA_OS: LINUX, WINDOWS").operatingSystems =
      ["Windows", "Linux"] ∧
    (local_payload "x.ps1" "# NINJA_OS: LINUX, AMIGA").operatingSystems = ["Linux"] := by
  refine ⟨?_, ?_, by decide, by decide, by decide, by decide⟩
  · intro content cap h
    simp only [parse_powershell_metadata, h, tagTokens]
  · intro l₁ l₂ h
    simp only [osDisplay, propext (h "WINDOWS"), propext (h "MAC"), propext (h "LINUX")]

/-- C7 witness: the order-independence conjunct at a concrete pair of token
lists, and the extraction conjunct at a concrete tag line. -/
theorem c7_os_pipeline_witness :
    osDisplay ["LINUX", "WINDOWS"] = osDisplay ["WINDOWS", "LINUX"] ∧
    (parse_powershell_metadata "# NINJA_OS: Mac").operatingSystems =
      (splitComma "Mac".data).map (fun t => String.mk ((pyStrip t).map asciiUpperChar)) :=
  ⟨c7_os_pipeline.2.1 ["LINUX", "WINDOWS"] ["WINDOWS", "LINUX"]
    (by
      intro t
      simp only [List.mem_cons, List.not_mem_nil, or_false]
      exact or_comm),
   c7_os_pipeline.1 "# NINJA_OS: Mac" "Mac".data (by decide)⟩

/-- The per-match loop body never raises: the raising accessor variant
agrees with the plain one. -/
theorem buildVarE_ok (helps : List (List Char × List Char)) (m : PMatch) :
    buildVarE helps m = Except.ok (buildVar helps m) := rfl

/-- Running the raising loop over any match list never raises. -/
theorem buildVarsE_ok (helps : List (List Char × List Char)) (l : List PMatch) :
    buildVarsE helps l = Except.ok (l.map (buildVar helps)) := by
  induction l with
  | nil => rfl
  | cons m rest ih =>
    simp only [buildVarsE, buildVarE_ok, ih, List.map_cons]
    rfl

/-- The `.DESCRIPTION` step never raises. -/
theorem descResultE_ok (ht : List Char) : descResultE ht = Except.ok (descResult ht) := by
  unfold descResultE descResult
  cases h : descSearch ht <;> simp only [h, pyGroup1] <;> rfl

/-- C8: the extractor is total — with every `.group(...)` access on a
possibly-`None` match object modelled as a raising operation, extraction
still returns `ok` on every input string, and the value is the plain
extractor's result. -/
theorem c8_extract_total (content : String) :
    parse_powershell_metadataE content = Except.ok (parse_powershell_metadata content) := by
  unfold parse_powershell_metadataE parse_powershell_metadata
  cases h1 : osSearch content.data <;>
    cases h2 : archSearch content.data <;>
      cases h3 : helpSearch content.data <;>
        cases h4 : paramBlockSearch content.data <;>
          simp [h1, h2, h3, h4, pyGroup1, buildVarsE_ok, descResultE_ok] <;>
            rfl

/-- A name absent from the projected remote names is not found by the
last-wins lookup. -/
theorem lookupLast_eq_none {vs : List NVar} {n : String}
    (h : n ∉ vs.map NVar.name) : lookupLast vs n = none := by
  unfold lookupLast
  rw [List.find?_eq_none]
  intro v hv hb
  exact h ((beq_iff_eq.mp hb) ▸ List.mem_map_of_mem NVar.name (List.mem_reverse.mp hv))

/-- With pairwise-distinct projected names, the last-wins lookup of a
member's name returns that member. -/
theorem lookupLast_mem_nodup {vs : List NVar} {y : NVar}
    (hnd : (vs.map NVar.name).Nodup) (hy : y ∈ vs) : lookupLast vs y.name = some y := by
  cases hf : lookupLast vs y.name with
  | none =>
    unfold lookupLast at hf
    rw [List.find?_eq_none] at hf
    exact absurd (by simp) (hf y (List.mem_reverse.mpr hy))
  | some z =>
    unfold lookupLast at hf
    have hp := @List.find?_some NVar (fun v => v.name == y.name) z vs.reverse hf
    have hz1 : z.name = y.name := by simpa using hp
    have hz2 : z ∈ vs := List.mem_reverse.mp (List.mem_of_find?_eq_some hf)
    rw [List.inj_on_of_nodup_map hnd hz2 hy hz1]

/-- An ADD/MODIFY entry produced from a local variable carries its name. -/
theorem addOrModify_some_name {R : List NVar} {v : NVar} {e : PDiff}
    (h : addOrModify R v = some e) : entryName e = v.name := by
  unfold addOrModify at h
  cases hl : lookupLast R v.name <;> simp only [hl] at h
  · cases h
    rfl
  · rename_i r
    by_cases hvr : v ≠ r
    · rw [if_pos hvr] at h
      cases h
      rfl
    · rw [if_neg hvr] at h
      cases h

/-- An ADD/MODIFY entry is never a REMOVE line. -/
theorem addOrModify_not_remove {R : List NVar} {v : NVar} {e : PDiff} {n : String}
    (h : addOrModify R v = some e) : isRemoveOf n e = false := by
  unfold addOrModify at h
  cases hl : lookupLast R v.name <;> simp only [hl] at h
  · cases h
    rfl
  · rename_i r
    by_cases hvr : v ≠ r
    · rw [if_pos hvr] at h
      cases h
      rfl
    · rw [if_neg hvr] at h
      cases h

/-- A produced REMOVE entry carries the remote variable's name, which is
absent from the local names. -/
theorem removeEntry_some {L : List NVar} {r : NVar} {e : PDiff}
    (h : removeEntry L r = some e) :
    e = PDiff.remove r.name ∧ r.name ∉ L.map NVar.name := by
  unfold removeEntry at h
  split at h
  · cases h
  · rename_i hc
    cases h
    refine ⟨rfl, fun hmem => hc ?_⟩
    simpa [List.contains, List.elem_eq_mem] using hmem

/-- An entry about a different name is not an ADD line for this one. -/
theorem isAddOf_false_of_ne {n : String} {e : PDiff} (h : entryName e ≠ n) :
    isAddOf n e = false := by
  cases e with
  | add v => simpa [isAddOf, entryName] using h
  | modify m ch => rfl
  | remove m => rfl

/-- An entry about a different name is not a MODIFY line for this one. -/
theorem isModifyOf_false_of_ne {n : String} {e : PDiff} (h : entryName e ≠ n) :
    isModifyOf n e = false := by
  cases e with
  | add v => rfl
  | modify m ch => simpa [isModifyOf, entryName] using h
  | remove m => rfl

/-- An entry about a different name does not mention this one. -/
theorem mentionsName_false_of_ne {n : String} {e : PDiff} (h : entryName e ≠ n) :
    mentionsName n e = false := by
  simpa [mentionsName] using h

/-- Filtering a `filterMap` whose surviving images all fail the predicate
yields the empty list. -/
theorem filter_filterMap_nil {α β : Type _} (f : α → Option β) (p : β → Bool)
    (l : List α) (h : ∀ v ∈ l, ∀ e, f v = some e → p e = false) :
    (l.filterMap f).filter p = [] := by
  rw [List.filter_eq_nil_iff]
  intro e he
  rcases List.mem_filterMap.mp he with ⟨v, hv, hfv⟩
  simp [h v hv e hfv]

/-- Filtering a `filterMap` over a duplicate-free list whose only surviving
image passing the predicate comes from the element `x` yields exactly that
image. -/
theorem filter_filterMap_single {α β : Type _} (f : α → Option β) (p : β → Bool)
    (l : List α) (x : α) (ex : β) (hnd : l.Nodup) (hx : x ∈ l)
    (hfx : f x = some ex) (hpx : p ex = true)
    (hothers : ∀ v ∈ l, v ≠ x → ∀ e, f v = some e → p e = false) :
    (l.filterMap f).filter p = [ex] := by
  induction l with
  | nil => cases hx
  | cons hd t ih =>
    rcases List.mem_cons.mp hx with hhd | hxt
    · subst hhd
      rw [List.filterMap_cons, hfx]
      have htail : (t.filterMap f).filter p = [] := by
        apply filter_filterMap_nil
        intro v hv e hfv
        have hvne : v ≠ x := fun hh => (List.nodup_cons.mp hnd).1 (hh ▸ hv)
        exact hothers v (List.mem_cons_of_mem _ hv) hvne e hfv
      simp [List.filter_cons, hpx, htail]
    · have hne : hd ≠ x := fun hh => (List.nodup_cons.mp hnd).1 (hh ▸ hxt)
      have hrest := ih (List.nodup_cons.mp hnd).2 hxt
        (fun v hv hvne e hfv => hothers v (List.mem_cons_of_mem _ hv) hvne e hfv)
      rw [List.filterMap_cons]
      cases hfh : f hd with
      | none => exact hrest
      | some e =>
        have hpe : p e = false := hothers hd (List.mem_cons_self _ _) hne e hfh
        simp [List.filter_cons, hpe, hrest]

/-- The ADD conjunct at the `param_diffs` level. -/
theorem paramDiffs_add {L R : List NVar} (hl : (L.map NVar.name).Nodup)
    {x : NVar} (hx : x ∈ L) (hnx : x.name ∉ R.map NVar.name) :
    (param_diffs L R).filter (isAddOf x.name) = [PDiff.add x] := by
  have hne : L ≠ R := by
    intro he
    exact hnx (he ▸ List.mem_map_of_mem NVar.name hx)
  unfold param_diffs
  rw [if_neg hne, List.filter_append]
  have hB : (R.filterMap (removeEntry L)).filter (isAddOf x.name) = [] := by
    apply filter_filterMap_nil
    intro v hv e hfv
    rcases removeEntry_some hfv with ⟨hre, _⟩
    rw [hre]
    rfl
  rw [hB, List.append_nil]
  refine filter_filterMap_single (addOrModify R) (isAddOf x.name) L x (PDiff.add x)
    (hl.of_map NVar.name) hx ?_ (by simp [isAddOf]) ?_
  · unfold addOrModify
    rw [lookupLast_eq_none hnx]
  · intro v hv hvne e hfv
    have hnames : v.name ≠ x.name := fun h =>
      hvne (List.inj_on_of_nodup_map hl hv hx h)
    exact isAddOf_false_of_ne ((addOrModify_some_name hfv) ▸ hnames)

/-- The REMOVE conjunct at the `param_diffs` level. -/
theorem paramDiffs_remove {L R : List NVar} (hr : (R.map NVar.name).Nodup)
    {y : NVar} (hy : y ∈ R) (hny : y.name ∉ L.map NVar.name) :
    (param_diffs L R).filter (isRemoveOf y.name) = [PDiff.remove y.name] := by
  have hne : L ≠ R := by
    intro he
    subst he
    exact hny (List.mem_map_of_mem NVar.name hy)
  unfold param_diffs
  rw [if_neg hne, List.filter_append]
  have hA : (L.filterMap (addOrModify R)).filter (isRemoveOf y.name) = [] := by
    apply filter_filterMap_nil
    intro v hv e hfv
    exact addOrModify_not_remove hfv
  rw [hA, List.nil_append]
  refine filter_filterMap_single (removeEntry L) (isRemoveOf y.name) R y
    (PDiff.remove y.name) (hr.of_map NVar.name) hy ?_ (by simp [isRemoveOf]) ?_
  · unfold removeEntry
    rw [if_neg]
    intro hc
    exact hny (by simpa [List.contains, List.elem_eq_mem] using hc)
  · intro v hv hvne e hfv
    rcases removeEntry_some hfv with ⟨hre, _⟩
    have hnames : v.name ≠ y.name := fun h =>
      hvne (List.inj_on_of_nodup_map hr hv hy h)
    rw [hre]
    simpa [isRemoveOf] using hnames

/-- The MODIFY conjunct at the `param_diffs` level. -/
theorem paramDiffs_modify {L R : List NVar} (hl : (L.map NVar.name).Nodup)
    (hr : (R.map NVar.name).Nodup) {x y : NVar} (hx : x ∈ L) (hy : y ∈ R)
    (hname : x.name = y.name) (hxy : x ≠ y) :
    (param_diffs L R).filter (isModifyOf x.name) =
      [PDiff.modify x.name (diffFields x y)] := by
  have hne : L ≠ R := by
    intro he
    subst he
    exact hxy (List.inj_on_of_nodup_map hl hx hy hname)
  unfold param_diffs
  rw [if_neg hne, List.filter_append]
  have hB : (R.filterMap (removeEntry L)).filter (isModifyOf x.name) = [] := by
    apply filter_filterMap_nil
    intro v hv e hfv
    rcases removeEntry_some hfv with ⟨hre, _⟩
    rw [hre]
    rfl
  rw [hB, List.append_nil]
  refine filter_filterMap_single (addOrModify R) (isModifyOf x.name) L x
    (PDiff.modify x.name (diffFields x y)) (hl.of_map NVar.name) hx ?_
    (by simp [isModifyOf]) ?_
  · unfold addOrModify
    have hlook : lookupLast R x.name = some y := by
      rw [hname]
      exact lookupLast_mem_nodup hr hy
    simp [hlook, hxy]
  · intro v hv hvne e hfv
    have hnames : v.name ≠ x.name := fun h =>
      hvne (List.inj_on_of_nodup_map hl hv hx h)
    exact isModifyOf_false_of_ne ((addOrModify_some_name hfv) ▸ hnames)

/-- The no-entry conjunct at the `param_diffs` level: a name whose local and
remote projections agree is never mentioned. -/
theorem paramDiffs_none {L R : List NVar} (hl : (L.map NVar.name).Nodup)
    (hr : (R.map NVar.name).Nodup) {x y : NVar} (hx : x ∈ L) (hy : y ∈ R)
    (hname : x.name = y.name) (hxy : x = y) :
    (param_diffs L R).filter (mentionsName x.name) = [] := by
  unfold param_diffs
  by_cases he : L = R
  · rw [if_pos he]
    rfl
  · rw [if_neg he, List.filter_append]
    have hA : (L.filterMap (addOrModify R)).filter (mentionsName x.name) = [] := by
      apply filter_filterMap_nil
      intro v hv e hfv
      by_cases hvx : v = x
      · exfalso
        subst hvx
        unfold addOrModify at hfv
        have hlook : lookupLast R y.name = some y := lookupLast_mem_nodup hr hy
        simp [hxy, hname, hlook] at hfv
      · have hnames : v.name ≠ x.name := fun h =>
          hvx (List.inj_on_of_nodup_map hl hv hx h)
        exact mentionsName_false_of_ne ((addOrModify_some_name hfv) ▸ hnames)
    have hB : (R.filterMap (removeEntry L)).filter (mentionsName x.name) = [] := by
      apply filter_filterMap_nil
      intro v hv e hfv
      rcases removeEntry_some hfv with ⟨hre, hnot⟩
      have hnames : v.name ≠ x.name := fun h =>
        hnot (h ▸ List.mem_map_of_mem NVar.name hx)
      rw [hre]
      simpa [mentionsName, entryName] using hnames
    rw [hA, hB]
    rfl

/-- The MODIFY field list names exactly the keys whose projected values
differ, in key order, with the remote value first and the local value
second. -/
theorem diffFields_spec (x y : NVar) :
    (diffFields x y).map Prod.fst =
        fieldNames.filter (fun k => !(nvarField x k == nvarField y k)) ∧
    ∀ p ∈ diffFields x y, p.2.1 = nvarField y p.1 ∧ p.2.2 = nvarField x p.1 := by
  constructor
  · have h : ∀ ks : List String,
        ((ks.filterMap fun k =>
            if nvarField x k ≠ nvarField y k then
              some (k, nvarField y k, nvarField x k)
            else none).map Prod.fst) =
          ks.filter (fun k => !(nvarField x k == nvarField y k)) := by
      intro ks
      induction ks with
      | nil => rfl
      | cons k t ih =>
        simp only [ne_eq, ite_not] at ih ⊢
        by_cases hk : nvarField x k = nvarField y k <;>
          simp [List.filterMap_cons, List.filter_cons, hk, ih]
    exact h fieldNames
  · intro p hp
    rcases List.mem_filterMap.mp hp with ⟨k, _, hfk⟩
    by_cases h : nvarField x k = nvarField y k
    · rw [if_neg (not_not_intro h)] at hfk
      cases hfk
    · rw [if_pos h] at hfk
      cases hfk
      exact ⟨rfl, rfl⟩

/-- C6: for a found remote record, after projection and sorting, a
local-only name yields exactly one ADD entry carrying the local projected
record, a remote-only name yields exactly one REMOVE entry, a shared name
with differing projections yields exactly one MODIFY entry whose field list
names exactly the differing fields with remote-before/local-after values,
and a shared name with identical projections yields no entry at all
(assuming names are unique within each record, as the data model requires). -/
theorem c6_change_plan_diff (lp : LocalPayload) (rs : RemoteScript)
    (hl : ((normalize_vars lp.scriptVariables).map NVar.name).Nodup)
    (hr : ((normalize_vars rs.scriptVariables).map NVar.name).Nodup) :
    (∀ x ∈ normalize_vars lp.scriptVariables,
        x.name ∉ (normalize_vars rs.scriptVariables).map NVar.name →
        ((log_change_plan lp rs).paramDiffs.filter (isAddOf x.name)) = [PDiff.add x]) ∧
    (∀ y ∈ normalize_vars rs.scriptVariables,
        y.name ∉ (normalize_vars lp.scriptVariables).map NVar.name →
        ((log_change_plan lp rs).paramDiffs.filter (isRemoveOf y.name)) =
          [PDiff.remove y.name]) ∧
    (∀ x ∈ normalize_vars lp.scriptVariables,
        ∀ y ∈ normalize_vars rs.scriptVariables,
        x.name = y.name → x ≠ y →
        ((log_change_plan lp rs).paramDiffs.filter (isModifyOf x.name)) =
          [PDiff.modify x.name (diffFields x y)]) ∧
    (∀ x ∈ normalize_vars lp.scriptVariables,
        ∀ y ∈ normalize_vars rs.scriptVariables,
        x.name = y.name → x = y →
        ((log_change_plan lp rs).paramDiffs.filter (mentionsName x.name)) = []) ∧
    (∀ x y : NVar,
        (diffFields x y).map Prod.fst =
          fieldNames.filter (fun k => !(nvarField x k == nvarField y k)) ∧
        ∀ p ∈ diffFields x y, p.2.1 = nvarField y p.1 ∧ p.2.2 = nvarField x p.1) := by
  refine ⟨?_, ?_, ?_, ?_, fun x y => diffFields_spec x y⟩
  · intro x hx hnx
    exact paramDiffs_add hl hx hnx
  · intro y hy hny
    exact paramDiffs_remove hr hy hny
  · intro x hx y hy hname hxy
    exact paramDiffs_modify hl hr hx hy hname hxy
  · intro x hx y hy hname hxy
    exact paramDiffs_none hl hr hx hy hname hxy

/-- C6 witness: local variables named A and B against remote variables named
B and C, with B's projection identical on both sides: one ADD for A with the
full local field set, one REMOVE for C, and no entry mentioning B. -/
theorem c6_change_plan_diff_witness :
    ((log_change_plan
        ⟨"s", "", "powershell", [], [], "",
          [⟨"A", some "da", some "TEXT", some false, none, some "LITERAL", []⟩,
           ⟨"B", some "db", some "TEXT", some false, some "1", some "LITERAL", []⟩]⟩
        ⟨7, "s", some "",
          [⟨"B", some "db", some "TEXT", some false, some "1", none, []⟩,
           ⟨"C", some "dc", none, none, none, none, []⟩]⟩).paramDiffs.filter
      (isAddOf "A")) = [PDiff.add ⟨"A", some "da", some "TEXT", false, none⟩] ∧
    ((log_change_plan
        ⟨"s", "", "powershell", [], [], "",
          [⟨"A", some "da", some "TEXT", some false, none, some "LITERAL", []⟩,
           ⟨"B", some "db", some "TEXT", some false, some "1", some "LITERAL", []⟩]⟩
        ⟨7, "s", some "",
          [⟨"B", some "db", some "TEXT", some false, some "1", none, []⟩,
           ⟨"C", some "dc", none, none, none, none, []⟩]⟩).paramDiffs.filter
      (isRemoveOf "C")) = [PDiff.remove "C"] ∧
    ((log_change_plan
        ⟨"s", "", "powershell", [], [], "",
          [⟨"A", some "da", some "TEXT", some false, none, some "LITERAL", []⟩,
           ⟨"B", some "db", some "TEXT", some false, some "1", some "LITERAL", []⟩]⟩
        ⟨7, "s", some "",
          [⟨"B", some "db", some "TEXT", some false, some "1", none, []⟩,
           ⟨"C", some "dc", none, none, none, none, []⟩]⟩).paramDiffs.filter
      (mentionsName "B")) = [] := by
  have h := c6_change_plan_diff
    ⟨"s", "", "powershell", [], [], "",
      [⟨"A", some "da", some "TEXT", some false, none, some "LITERAL", []⟩,
       ⟨"B", some "db", some "TEXT", some false, some "1", some "LITERAL", []⟩]⟩
    ⟨7, "s", some "",
      [⟨"B", some "db", some "TEXT", some false, some "1", none, []⟩,
       ⟨"C", some "dc", none, none, none, none, []⟩]⟩
    (by decide) (by decide)
  exact ⟨h.1 ⟨"A", some "da", some "TEXT", false, none⟩ (by decide) (by decide),
    h.2.1 ⟨"C", some "dc", none, false, none⟩ (by decide) (by decide),
    h.2.2.2.1 ⟨"B", some "db", some "TEXT", false, some "1"⟩ (by decide)
      ⟨"B", some "db", some "TEXT", false, some "1"⟩ (by decide) (by decide) (by decide)⟩

end SyncScripts
